import Mathlib

/-! Verification of the constraint-formatting utilities of
`cvxpy/constraints/utilities.py`: `format_axis`, `format_elemwise` and
`get_spacing_matrix`.  The linear-operator layer (`cvxpy.lin_ops.lin_utils`)
and the sparse-matrix layer (`scipy.sparse`) are external collaborators of
this file; they are modelled from the specification's description of their
interfaces.  Linear operators are modelled denotationally: a shape (the
Python shape tuple) together with the column-major flattened numeric data,
over `ℚ`. -/

namespace Cvx

/-- Failure outcomes of the modelled pipeline: `shapeMismatch` is the
composition layer's shape error, `indexError` models a Python out-of-range
sequence/tuple indexing, `invalidIndex` models the sparse-matrix factory
rejecting a triplet whose index lies outside the declared shape. -/
inductive LinErr where
  | shapeMismatch
  | indexError
  | invalidIndex
deriving DecidableEq

/-- Modelled from the spec: a `LinOp` expression node, reduced to its
denotation.  `shape` is the Python shape tuple (`[]` scalar, `[m]` 1-D,
`[r, c]` 2-D); `data` is the column-major flattened numeric content
(entries beyond the valid region are irrelevant junk). -/
structure LinOp where
  shape : List ℕ
  data : ℕ → ℚ

/-- Row count read off a shape tuple: a scalar has one row, otherwise the
leading shape entry. -/
def shapeRows : List ℕ → ℕ
  | [] => 1
  | r :: _ => r

/-- Column count read off a shape tuple. -/
def shapeCols : List ℕ → ℕ
  | [] => 1
  | [_] => 1
  | _ :: c :: _ => c

/-- Number of rows of a `LinOp` when viewed as a matrix. -/
def LinOp.rows (e : LinOp) : ℕ :=
  shapeRows e.shape

/-- Number of columns of a `LinOp` when viewed as a matrix. -/
def LinOp.cols (e : LinOp) : ℕ :=
  shapeCols e.shape

/-- Matrix entry `(i, j)` of a `LinOp`, reading the column-major data. -/
def LinOp.entry (e : LinOp) (i j : ℕ) : ℚ :=
  e.data (j * e.rows + i)

/-- Modelled from the spec: `lu.transpose`, swapping the two matrix
dimensions. -/
def transpose (e : LinOp) : LinOp :=
  { shape := [e.cols, e.rows]
    data := fun k => e.entry (k / e.cols) (k % e.cols) }

/-- Modelled from the spec: `lu.reshape`; column-major reshaping keeps the
flattened data and installs the new shape. -/
def reshape (e : LinOp) (s : List ℕ) : LinOp :=
  { shape := s, data := e.data }

/-- The matrix product denotation used by `mul_expr` (shape checked by
`mul_expr` itself): result shape keeps the left operand's row count and the
right operand's trailing dimensions. -/
def mulData (A B : LinOp) : LinOp :=
  { shape := A.rows :: B.shape.drop 1
    data := fun k =>
      ∑ c ∈ Finset.range A.cols, A.entry (k % A.rows) c * B.entry c (k / A.rows) }

/-- Modelled from the spec: `lu.mul_expr`, the composition layer's multiply;
it signals `ShapeMismatch` when the inner dimensions disagree. -/
def mul_expr (A B : LinOp) : Except LinErr LinOp :=
  if B.rows = A.cols then Except.ok (mulData A B)
  else Except.error LinErr.shapeMismatch

/-- The elementwise-sum denotation used by `sum_expr` (shape checked by
`sum_expr` itself). -/
def sumData (terms : List LinOp) (shape0 : List ℕ) : LinOp :=
  { shape := shape0
    data := fun k => (terms.map (fun e => e.data k)).sum }

/-- Modelled from the spec: `lu.sum_expr`, the composition layer's n-ary
sum; it reads the first operand's shape and signals `ShapeMismatch` when
the operands' shapes are not all identical. -/
def sum_expr (terms : List LinOp) : Except LinErr LinOp :=
  match terms with
  | [] => Except.error LinErr.indexError
  | t :: rest =>
    if rest.all (fun r => r.shape = t.shape) then
      Except.ok (sumData (t :: rest) t.shape)
    else Except.error LinErr.shapeMismatch

/-- A sparse matrix in triplet (COO) form: a shape together with the list
of `(row, col, value)` triplets. -/
structure SparseMat where
  shape : ℕ × ℕ
  triplets : List (ℕ × ℕ × ℚ)

/-- Entry `(i, j)` of a triplet-form sparse matrix: the sum of the values
of all triplets carrying that index pair (standard sparse-assembly
semantics). -/
def SparseMat.entry (m : SparseMat) (i j : ℕ) : ℚ :=
  ((m.triplets.filter (fun tr => tr.1 = i ∧ tr.2.1 = j)).map (fun tr => tr.2.2)).sum

/-- Modelled from the spec: the sparse triplet assembly
(`scipy.sparse.coo_matrix`) with its standard semantics — the constructor
rejects any triplet whose row or column index lies outside the declared
shape. -/
def coo_matrix (triplets : List (ℕ × ℕ × ℚ)) (shape : ℕ × ℕ) :
    Except LinErr SparseMat :=
  if triplets.all (fun tr => tr.1 < shape.1 ∧ tr.2.1 < shape.2) then
    Except.ok { shape := shape, triplets := triplets }
  else Except.error LinErr.invalidIndex

/-- Modelled from the spec: `lu.create_const` on a sparse matrix, wrapping
it as a constant `LinOp` of the given 2-D shape. -/
def create_const (m : SparseMat) (shape : ℕ × ℕ) : LinOp :=
  { shape := [shape.1, shape.2]
    data := fun k => m.entry (k % shape.1) (k / shape.1) }

/-- Modelled from the spec: a `LinLeqConstr`, the constraint `0 ≤ expr`
wrapping a single combined expression. -/
structure LinLeqConstr where
  expr : LinOp

/-- Modelled from the spec: `lu.create_geq`, wrapping an expression in a
single `0 ≤ expr` constraint. -/
def create_geq (e : LinOp) : LinLeqConstr :=
  { expr := e }

/-- The triplet list built by the loop of `get_spacing_matrix`: for each
column `var_row` of the output, value `1.0` at row
`spacing * var_row + offset`. -/
def spacingTriplets (shape : ℕ × ℕ) (spacing offset : ℕ) : List (ℕ × ℕ × ℚ) :=
  (List.range shape.2).map (fun var_row => (spacing * var_row + offset, var_row, (1 : ℚ)))

/-- The function `get_spacing_matrix(shape, spacing, offset)`: builds the COO triplets
selecting from each column, assembles them into a sparse matrix of the
given shape and wraps it as a constant `LinOp`. -/
def get_spacing_matrix (shape : ℕ × ℕ) (spacing offset : ℕ) :
    Except LinErr LinOp := do
  let mat ← coo_matrix (spacingTriplets shape spacing offset) shape
  return create_const mat shape

/-- The single triplet of the leader-placement matrix `t_mat` of
`format_axis`: a lone `1.0` at position `(0, 0)`. -/
def tMatTriplets : List (ℕ × ℕ × ℚ) :=
  [(0, 0, (1 : ℚ))]

/-- The triplets of the data-placement matrix `X_mat` of `format_axis`:
values `(cone_size - 1) * [1.0]` at rows `range(1, cone_size)` and columns
`range(cone_size - 1)`, i.e. `1.0` at `(1 + j, j)`. -/
def xMatTriplets (cone_size : ℕ) : List (ℕ × ℕ × ℚ) :=
  (List.range (cone_size - 1)).map (fun j => (1 + j, j, (1 : ℚ)))

/-- The function `format_axis(t, X, axis)`: formats all the row/column cones for the
solver.  If `axis == 1` the matrix is transposed; then `t_mat * t_vec`
places the reshaped leader at row `0` and `X_mat * X` places the cone data
at rows `1 ..`, and the two products are summed and wrapped in one `≥ 0`
constraint.  Reading `X.shape[0]` of a scalar `X` is a Python
`IndexError`, modelled by the `indexError` outcome. -/
def format_axis (t X0 : LinOp) (axis : ℤ) : Except LinErr (List LinLeqConstr) := do
  let X := if axis = 1 then transpose X0 else X0
  let xRows ← match X.shape with
    | [] => Except.error LinErr.indexError
    | r :: _ => Except.ok r
  let cone_size := 1 + xRows
  let t_mat_shape := (cone_size, 1)
  let t_mat_coo ← coo_matrix tMatTriplets t_mat_shape
  let t_mat := create_const t_mat_coo t_mat_shape
  let t_vec := match t.shape with
    | [] => reshape t [1, 1]
    | m :: _ => reshape t [1, m]
  let term0 ← mul_expr t_mat t_vec
  let x_mat_shape := (cone_size, xRows)
  let x_mat_coo ← coo_matrix (xMatTriplets cone_size) x_mat_shape
  let x_mat := create_const x_mat_coo x_mat_shape
  let term1 ← mul_expr x_mat X
  let s ← sum_expr [term0, term1]
  return [create_geq s]

/-- The loop body of `format_elemwise`: for each expression (enumerated
from index `i0`), build the spacing matrix with offset equal to the
expression's index and multiply. -/
def elemwiseTerms (mat_shape : ℕ × ℕ) (spacing : ℕ) :
    ℕ → List LinOp → Except LinErr (List LinOp)
  | _, [] => Except.ok []
  | i, v :: rest => do
    let mat ← get_spacing_matrix mat_shape spacing i
    let term ← mul_expr mat v
    let rest2 ← elemwiseTerms mat_shape spacing (i + 1) rest
    return term :: rest2

/-- The function `format_elemwise(vars_)`: formats all the elementwise cones for the
solver.  `spacing = len(vars_)`; the spacing matrices have shape
`(spacing * vars_[0].shape[0], vars_[0].shape[0])`; each expression is
multiplied by its spacing matrix and the products are summed into one
`≥ 0` constraint.  Indexing `vars_[0]` of an empty list, or `shape[0]` of
a scalar first expression, is a Python `IndexError`. -/
def format_elemwise (vars_ : List LinOp) : Except LinErr (List LinLeqConstr) := do
  let spacing := vars_.length
  let first ← match vars_ with
    | [] => Except.error LinErr.indexError
    | v :: _ => Except.ok v
  let firstRows ← match first.shape with
    | [] => Except.error LinErr.indexError
    | r :: _ => Except.ok r
  let mat_shape := (spacing * firstRows, firstRows)
  let terms ← elemwiseTerms mat_shape spacing 0 vars_
  let s ← sum_expr terms
  return [create_geq s]

/-- Concrete expression of shape `(2, 1)` with values `[1, 2]`. -/
def exV0 : LinOp :=
  { shape := [2, 1], data := fun k => (([1, 2] : List ℚ).getD k 0) }

/-- Concrete expression of shape `(2, 1)` with values `[10, 20]`. -/
def exV1 : LinOp :=
  { shape := [2, 1], data := fun k => (([10, 20] : List ℚ).getD k 0) }

/-- Concrete 1-D leader `t = [5, 6]`. -/
def exT : LinOp :=
  { shape := [2], data := fun k => (([5, 6] : List ℚ).getD k 0) }

/-- Concrete `2 × 2` matrix with columns `[1, 2]` and `[3, 4]`
(column-major data `[1, 2, 3, 4]`). -/
def exX : LinOp :=
  { shape := [2, 2], data := fun k => (([1, 2, 3, 4] : List ℚ).getD k 0) }

/-- Concrete expression of shape `(3, 1)`, used for shape-mismatch
counterexamples. -/
def exW : LinOp :=
  { shape := [3, 1], data := fun k => (([7, 8, 9] : List ℚ).getD k 0) }

/-- A default `LinOp` used only as the unused fallback of `List.getD`. -/
def zeroOp : LinOp :=
  { shape := [], data := fun _ => 0 }

/- ### Helper lemmas about the modelled layers -/

/-- Binding a successful `Except` computation runs the continuation. -/
theorem ok_bind {α β : Type} (a : α) (f : α → Except LinErr β) :
    (Except.ok a : Except LinErr α) >>= f = f a := rfl

/-- Binding a failed `Except` computation propagates the failure. -/
theorem error_bind {α β : Type} (e : LinErr) (f : α → Except LinErr β) :
    (Except.error e : Except LinErr α) >>= f = Except.error e := rfl

/-- A positional decomposition `q * N + s` with `s < N` is unique. -/
theorem mul_add_cancel_of_lt {N a b c d : ℕ} (hb : b < N) (hd : d < N)
    (h : N * a + b = N * c + d) : a = c ∧ b = d := by
  have hN : 0 < N := lt_of_le_of_lt (Nat.zero_le b) hb
  have ha : a = c := by
    have h1 := congrArg (fun x => x / N) h
    simpa [Nat.mul_add_div hN, Nat.div_eq_of_lt hb, Nat.div_eq_of_lt hd] using h1
  refine ⟨ha, ?_⟩
  rw [ha] at h
  exact Nat.add_left_cancel h

/-- Reading entry `(i, j)` of a wrapped sparse constant, inside the valid
row range, reads the sparse matrix's entry. -/
theorem create_const_entry (m : SparseMat) (r c i j : ℕ) (hi : i < r) :
    (create_const m (r, c)).entry i j = m.entry i j := by
  have hr : 0 < r := lt_of_le_of_lt (Nat.zero_le i) hi
  have hmod : (j * r + i) % r = i := by
    rw [Nat.add_comm, Nat.add_mul_mod_self_right, Nat.mod_eq_of_lt hi]
  have hdiv : (j * r + i) / r = j := by
    rw [Nat.add_comm, Nat.add_mul_div_right _ _ hr,
      Nat.div_eq_of_lt hi, Nat.zero_add]
  show m.entry ((j * r + i) % r) ((j * r + i) / r) = m.entry i j
  rw [hmod, hdiv]

/-- Entry `(i, j)` of the product denotation, inside the valid row range,
is the usual inner product. -/
theorem mulData_entry (A B : LinOp) (i j : ℕ) (hi : i < A.rows) :
    (mulData A B).entry i j
      = ∑ c ∈ Finset.range A.cols, A.entry i c * B.entry c j := by
  have hr : 0 < A.rows := lt_of_le_of_lt (Nat.zero_le i) hi
  have hmod : (j * A.rows + i) % A.rows = i := by
    rw [Nat.add_comm, Nat.add_mul_mod_self_right, Nat.mod_eq_of_lt hi]
  have hdiv : (j * A.rows + i) / A.rows = j := by
    rw [Nat.add_comm, Nat.add_mul_div_right _ _ hr,
      Nat.div_eq_of_lt hi, Nat.zero_add]
  show (∑ c ∈ Finset.range A.cols,
      A.entry ((j * A.rows + i) % A.rows) c * B.entry c ((j * A.rows + i) / A.rows))
    = ∑ c ∈ Finset.range A.cols, A.entry i c * B.entry c j
  rw [hmod, hdiv]

/-- Triplet-form entries are additive over list concatenation. -/
theorem sparse_entry_append (sh : ℕ × ℕ) (l1 l2 : List (ℕ × ℕ × ℚ)) (i j : ℕ) :
    SparseMat.entry ⟨sh, l1 ++ l2⟩ i j
      = SparseMat.entry ⟨sh, l1⟩ i j + SparseMat.entry ⟨sh, l2⟩ i j := by
  simp [SparseMat.entry, List.filter_append]

/-- Entry of a one-triplet sparse matrix. -/
theorem sparse_entry_singleton (sh : ℕ × ℕ) (r c : ℕ) (v : ℚ) (i j : ℕ) :
    SparseMat.entry ⟨sh, [(r, c, v)]⟩ i j = if r = i ∧ c = j then v else 0 := by
  by_cases h : r = i ∧ c = j
  · simp [SparseMat.entry, List.filter_cons, h]
  · simp [SparseMat.entry, List.filter_cons, h]

/-- Entry of a sparse matrix whose triplets place value `v c` at
`(f c, c)` for `c` below `k`: at most the triplet of column `j`
contributes. -/
theorem sparse_entry_map_range (sh : ℕ × ℕ) (f : ℕ → ℕ) (v : ℕ → ℚ) (k i j : ℕ) :
    SparseMat.entry ⟨sh, (List.range k).map (fun c => (f c, c, v c))⟩ i j
      = if f j = i ∧ j < k then v j else 0 := by
  induction k with
  | zero => simp [SparseMat.entry]
  | succ n ih =>
    rw [List.range_succ, List.map_append, sparse_entry_append, ih]
    simp only [List.map_cons, List.map_nil, sparse_entry_singleton]
    by_cases hj : j = n
    · subst hj
      simp
    · have h2 : ¬ (f n = i ∧ n = j) := fun h => hj h.2.symm
      rw [if_neg h2, add_zero]
      have h3 : (f j = i ∧ j < n) ↔ (f j = i ∧ j < n + 1) := by
        constructor
        · rintro ⟨h4, h5⟩
          exact ⟨h4, by omega⟩
        · rintro ⟨h4, h5⟩
          exact ⟨h4, by omega⟩
      rw [if_congr h3 rfl rfl]

/-- With `offset < spacing` every spacing triplet lies inside the shape
`(spacing * k, k)`, so the sparse factory accepts the list. -/
theorem coo_spacing_ok (spacing k offset : ℕ) (hoff : offset < spacing) :
    coo_matrix (spacingTriplets (spacing * k, k) spacing offset) (spacing * k, k)
      = Except.ok ⟨(spacing * k, k), spacingTriplets (spacing * k, k) spacing offset⟩ := by
  unfold coo_matrix
  split
  · rfl
  · rename_i hfalse
    exfalso
    apply hfalse
    rw [List.all_eq_true]
    intro tr htr
    simp only [spacingTriplets, List.mem_map, List.mem_range] at htr
    obtain ⟨c, hc, rfl⟩ := htr
    simp only [decide_eq_true_eq]
    refine ⟨?_, hc⟩
    have h1 : spacing * (c + 1) ≤ spacing * k := Nat.mul_le_mul_left spacing hc
    rw [Nat.mul_succ] at h1
    omega

/-- Value of `get_spacing_matrix` on a well-formed call. -/
theorem get_spacing_matrix_eq (spacing k offset : ℕ) (hoff : offset < spacing) :
    get_spacing_matrix (spacing * k, k) spacing offset
      = Except.ok (create_const
          ⟨(spacing * k, k), spacingTriplets (spacing * k, k) spacing offset⟩
          (spacing * k, k)) := by
  simp only [get_spacing_matrix, coo_spacing_ok spacing k offset hoff, ok_bind]
  rfl

/-- Entry formula for the wrapped spacing matrix: value `1` exactly at
`(spacing * c + offset, c)`. -/
theorem spacing_entry (spacing k offset i j : ℕ) (hi : i < spacing * k) :
    (create_const ⟨(spacing * k, k), spacingTriplets (spacing * k, k) spacing offset⟩
        (spacing * k, k)).entry i j
      = if spacing * j + offset = i ∧ j < k then 1 else 0 := by
  rw [create_const_entry _ _ _ _ _ hi]
  have h := sparse_entry_map_range (spacing * k, k)
      (fun c => spacing * c + offset) (fun _ => (1 : ℚ)) k i j
  simpa [spacingTriplets] using h

/-- Shape of the product denotation. -/
theorem mulData_shape (A B : LinOp) :
    (mulData A B).shape = A.rows :: B.shape.drop 1 := rfl

/-- Shape of a wrapped sparse constant. -/
theorem create_const_shape (m : SparseMat) (sh : ℕ × ℕ) :
    (create_const m sh).shape = [sh.1, sh.2] := rfl

/-- Shape of the sum denotation. -/
theorem sumData_shape (l : List LinOp) (sh : List ℕ) :
    (sumData l sh).shape = sh := rfl

/-- The multiply `mul_expr` succeeds exactly on compatible inner dimensions. -/
theorem mul_expr_ok (A B : LinOp) (h : B.rows = A.cols) :
    mul_expr A B = Except.ok (mulData A B) := by
  simp [mul_expr, h]

/-- Value of `sum_expr` on a pair of equal-shaped operands. -/
theorem sum_expr_pair (a b : LinOp) (h : b.shape = a.shape) :
    sum_expr [a, b] = Except.ok (sumData [a, b] a.shape) := by
  simp [sum_expr, h]

/-- Entry of a two-term sum of equal-shaped operands. -/
theorem sumData_pair_entry (a b : LinOp) (sh : List ℕ) (i j : ℕ)
    (ha : a.shape = sh) (hb : b.shape = sh) :
    (sumData [a, b] sh).entry i j = a.entry i j + b.entry i j := by
  simp only [sumData, LinOp.entry, LinOp.rows, List.map_cons, List.map_nil,
    List.sum_cons, List.sum_nil, add_zero, ha, hb]

/-- Entry of an n-ary sum of equal-shaped operands. -/
theorem sumData_entry_list (l : List LinOp) (sh : List ℕ) (i j : ℕ)
    (h : ∀ e ∈ l, e.shape = sh) :
    (sumData l sh).entry i j = (l.map (fun e => e.entry i j)).sum := by
  simp only [sumData, LinOp.entry, LinOp.rows]
  congr 1
  apply List.map_congr_left
  intro e he
  rw [h e he]

/- ### Theorems for the claims -/

/-- Claim C9: `format_elemwise` applied to an empty sequence fails
immediately with the indexing error raised by `vars_[0]`; it never returns
an (empty or trivial) constraint list for zero expressions. -/
theorem format_elemwise_empty_fails :
    format_elemwise [] = Except.error LinErr.indexError := rfl

/-- Claim C4: `format_axis` with `axis = 1` gives exactly the result of
`format_axis` with `axis = 0` applied to the transpose of `X`. -/
theorem format_axis_axis1_transpose (t X : LinOp) :
    format_axis t X 1 = format_axis t (transpose X) 0 := by
  simp [format_axis]

/-- Claim C5: a scalar leader (shape `()`) and a 1-D leader of length 1
(shape `(1,)`) carrying the same data are treated identically: both are
reshaped to `(1, 1)`, so the resulting constraint is the same. -/
theorem format_axis_scalar_vs_len1 (d : ℕ → ℚ) (X : LinOp) (axis : ℤ) :
    format_axis ⟨[], d⟩ X axis = format_axis ⟨[1], d⟩ X axis := rfl

/-- Claim C10: `format_axis` never rejects an invalid axis value; every
axis other than `1` behaves exactly like `axis = 0`. -/
theorem format_axis_axis_not_inspected (t X : LinOp) (axis : ℤ) (h : axis ≠ 1) :
    format_axis t X axis = format_axis t X 0 := by
  simp [format_axis, h]

/-- Witness for claim C10 at the out-of-range axis value `2`. -/
theorem format_axis_axis_not_inspected_witness :
    format_axis exT exX 2 = format_axis exT exX 0 :=
  format_axis_axis_not_inspected exT exX 2 (by decide)

/-- Claim C8: none of the triplet lists built by this file's functions
(the spacing-matrix triplets, and the `t_mat` and `X_mat` triplets of
`format_axis`) contains a duplicate `(row, col)` index pair. -/
theorem triplet_indices_distinct :
    (∀ (shape : ℕ × ℕ) (spacing offset : ℕ),
        (((spacingTriplets shape spacing offset).map (fun tr => (tr.1, tr.2.1))).Pairwise (· ≠ ·))
      ) ∧
    ((tMatTriplets.map (fun tr => (tr.1, tr.2.1))).Pairwise (· ≠ ·)) ∧
    (∀ cone_size : ℕ,
        (((xMatTriplets cone_size).map (fun tr => (tr.1, tr.2.1))).Pairwise (· ≠ ·))) := by
  refine ⟨?_, ?_, ?_⟩
  · intro shape spacing offset
    simp only [spacingTriplets, List.map_map]
    rw [List.pairwise_map]
    refine List.Pairwise.imp ?_ (List.pairwise_lt_range shape.2)
    intro a b hab
    simp only [Function.comp, ne_eq, Prod.mk.injEq, not_and]
    omega
  · simp [tMatTriplets]
  · intro cone_size
    simp only [xMatTriplets, List.map_map]
    rw [List.pairwise_map]
    refine List.Pairwise.imp ?_ (List.pairwise_lt_range (cone_size - 1))
    intro a b hab
    simp only [Function.comp, ne_eq, Prod.mk.injEq, not_and]
    omega

/-- Claim C3: for every `k ≥ 1`, `spacing` and `offset < spacing`,
`get_spacing_matrix((spacing*k, k), spacing, offset)` returns a constant
LinOp of shape `(spacing*k, k)` whose entry `(i, j)` is `1.0` exactly when
`i = spacing*j + offset` and `0` at every other position — one nonzero per
column `c`, at row `spacing*c + offset`. -/
theorem get_spacing_matrix_layout (spacing k offset : ℕ)
    (hk : 1 ≤ k) (hoff : offset < spacing) :
    ∃ L, get_spacing_matrix (spacing * k, k) spacing offset = Except.ok L
      ∧ L.shape = [spacing * k, k]
      ∧ ∀ i j, i < spacing * k → j < k →
          L.entry i j = if spacing * j + offset = i then 1 else 0 := by
  refine ⟨_, get_spacing_matrix_eq spacing k offset hoff, rfl, ?_⟩
  intro i j hi hj
  rw [spacing_entry spacing k offset i j hi]
  simp [hj]

/-- Witness for claim C3 at `spacing = 2`, `k = 3`, `offset = 1`. -/
theorem get_spacing_matrix_layout_witness :
    ∃ L, get_spacing_matrix (2 * 3, 3) 2 1 = Except.ok L
      ∧ L.shape = [2 * 3, 3]
      ∧ ∀ i j, i < 2 * 3 → j < 3 →
          L.entry i j = if 2 * j + 1 = i then 1 else 0 :=
  get_spacing_matrix_layout 2 3 1 (by decide) (by decide)

/-- Counterexample to claim C7: the call
`get_spacing_matrix((0, 0), 1, 2)` has `offset ≥ spacing` (and shape
`(spacing*k, k)` with `k = 0`) yet returns successfully — no error of any
kind is signaled for that call. -/
theorem get_spacing_matrix_offset_not_validated :
    ∃ L, get_spacing_matrix (0, 0) 1 2 = Except.ok L := ⟨_, rfl⟩

/-- Amended claim C7: when the matrix has at least one column, a call with
`offset ≥ spacing` and shape `(spacing*k, k)` fails: the last column's row
index `spacing*(k-1) + offset` falls outside the declared row count, which
the sparse factory rejects (there is no explicit validation in
`get_spacing_matrix` itself, and for `k = 0` no error is raised). -/
theorem get_spacing_matrix_invalid_offset (spacing k offset : ℕ)
    (hk : 1 ≤ k) (hoff : spacing ≤ offset) :
    get_spacing_matrix (spacing * k, k) spacing offset
      = Except.error LinErr.invalidIndex := by
  have hcoo : coo_matrix (spacingTriplets (spacing * k, k) spacing offset)
      (spacing * k, k) = Except.error LinErr.invalidIndex := by
    unfold coo_matrix
    split
    · rename_i hall
      exfalso
      rw [List.all_eq_true] at hall
      have hmem : (spacing * (k - 1) + offset, (k - 1, (1 : ℚ)))
          ∈ spacingTriplets (spacing * k, k) spacing offset := by
        simp only [spacingTriplets, List.mem_map, List.mem_range]
        exact ⟨k - 1, by omega, rfl⟩
      have h2 := hall _ hmem
      simp only [decide_eq_true_eq] at h2
      have h3 : spacing * ((k - 1) + 1) = spacing * (k - 1) + spacing :=
        Nat.mul_succ spacing (k - 1)
      have h4 : (k - 1) + 1 = k := by omega
      rw [h4] at h3
      omega
    · rfl
  simp only [get_spacing_matrix, hcoo, error_bind]

/-- Witness for the amended claim C7 at `spacing = 2`, `k = 1`,
`offset = 3`. -/
theorem get_spacing_matrix_invalid_offset_witness :
    get_spacing_matrix (2 * 1, 1) 2 3 = Except.error LinErr.invalidIndex :=
  get_spacing_matrix_invalid_offset 2 1 3 (by decide) (by decide)

/-- Claim C2: for a 1-D leader `t` of length `m` and `X` of shape
`(mr, m)`, `format_axis(t, X, axis=0)` returns one constraint whose
combined expression has shape `(1 + mr, m)`, with row `0` of column `j`
equal to `t_j` and rows `1 ..` of column `j` equal to `X[:, j]`. -/
theorem format_axis_axis0_layout (t X : LinOp) (m mr : ℕ)
    (ht : t.shape = [m]) (hX : X.shape = [mr, m]) :
    ∃ cst, format_axis t X 0 = Except.ok [cst]
      ∧ cst.expr.shape = [1 + mr, m]
      ∧ (∀ j, j < m → cst.expr.entry 0 j = t.data j)
      ∧ (∀ i j, i < mr → j < m → cst.expr.entry (1 + i) j = X.entry i j) := by
  have hcoo1 : coo_matrix tMatTriplets (1 + mr, 1)
      = Except.ok ⟨(1 + mr, 1), tMatTriplets⟩ := by
    unfold coo_matrix
    simp [tMatTriplets]
  have hcoo2 : coo_matrix (xMatTriplets (1 + mr)) (1 + mr, mr)
      = Except.ok ⟨(1 + mr, mr), xMatTriplets (1 + mr)⟩ := by
    unfold coo_matrix
    split
    · rfl
    · rename_i hfalse
      exfalso
      apply hfalse
      rw [List.all_eq_true]
      intro tr htr
      simp only [xMatTriplets, List.mem_map, List.mem_range] at htr
      obtain ⟨c, hc, rfl⟩ := htr
      simp only [decide_eq_true_eq]
      omega
  have hval : format_axis t X 0 = Except.ok [create_geq (sumData
      [mulData (create_const ⟨(1 + mr, 1), tMatTriplets⟩ (1 + mr, 1)) (reshape t [1, m]),
       mulData (create_const ⟨(1 + mr, mr), xMatTriplets (1 + mr)⟩ (1 + mr, mr)) X]
      [1 + mr, m])] := by
    have hif : (if (0 : ℤ) = 1 then transpose X else X) = X := if_neg (by decide)
    simp only [format_axis, hif, hX, ht, hcoo1, hcoo2, ok_bind, mul_expr_ok, sum_expr_pair,
      mulData_shape, create_const_shape, reshape, LinOp.rows, LinOp.cols,
      shapeRows, shapeCols, List.drop]
    rfl
  have hT0 : ∀ i j2, i < 1 + mr →
      (mulData (create_const ⟨(1 + mr, 1), tMatTriplets⟩ (1 + mr, 1))
          (reshape t [1, m])).entry i j2
        = (if 0 = i then 1 else 0) * t.data j2 := by
    intro i j2 hi
    rw [mulData_entry (create_const ⟨(1 + mr, 1), tMatTriplets⟩ (1 + mr, 1))
      (reshape t [1, m]) i j2 hi]
    have hcols : (create_const (⟨(1 + mr, 1), tMatTriplets⟩ : SparseMat)
        (1 + mr, 1)).cols = 1 := rfl
    rw [hcols, Finset.sum_range_one, create_const_entry _ _ _ _ _ hi]
    have hsing : SparseMat.entry ⟨(1 + mr, 1), tMatTriplets⟩ i 0
        = if 0 = i ∧ 0 = 0 then (1 : ℚ) else 0 := sparse_entry_singleton _ 0 0 1 i 0
    rw [hsing]
    simp [reshape, LinOp.entry, LinOp.rows, shapeRows]
  have hT1 : ∀ i j2, i < 1 + mr →
      (mulData (create_const ⟨(1 + mr, mr), xMatTriplets (1 + mr)⟩ (1 + mr, mr)) X).entry i j2
        = ∑ c ∈ Finset.range mr, (if 1 + c = i ∧ c < mr then (1 : ℚ) else 0) * X.entry c j2 := by
    intro i j2 hi
    rw [mulData_entry (create_const ⟨(1 + mr, mr), xMatTriplets (1 + mr)⟩ (1 + mr, mr))
      X i j2 hi]
    have hcols : (create_const (⟨(1 + mr, mr), xMatTriplets (1 + mr)⟩ : SparseMat)
        (1 + mr, mr)).cols = mr := rfl
    rw [hcols]
    apply Finset.sum_congr rfl
    intro c hc
    congr 1
    rw [create_const_entry _ _ _ _ _ hi]
    have h := sparse_entry_map_range (1 + mr, mr) (fun c => 1 + c) (fun _ => (1 : ℚ)) mr i c
    simpa [xMatTriplets, Nat.add_sub_cancel_left] using h
  have hA : (mulData (create_const ⟨(1 + mr, 1), tMatTriplets⟩ (1 + mr, 1))
      (reshape t [1, m])).shape = [1 + mr, m] := rfl
  have hB : (mulData (create_const ⟨(1 + mr, mr), xMatTriplets (1 + mr)⟩ (1 + mr, mr))
      X).shape = [1 + mr, m] := by
    rw [mulData_shape, hX]
    rfl
  refine ⟨_, hval, rfl, ?_, ?_⟩
  · intro j hj
    show (sumData _ [1 + mr, m]).entry 0 j = t.data j
    rw [sumData_pair_entry _ _ _ _ _ hA hB, hT0 0 j (by omega), hT1 0 j (by omega)]
    rw [Finset.sum_eq_zero]
    · simp
    · intro c hc
      rw [if_neg (by omega), zero_mul]
  · intro i j hi hj
    show (sumData _ [1 + mr, m]).entry (1 + i) j = X.entry i j
    rw [sumData_pair_entry _ _ _ _ _ hA hB, hT0 (1 + i) j (by omega),
      hT1 (1 + i) j (by omega)]
    rw [if_neg (by omega), zero_mul, zero_add]
    rw [Finset.sum_eq_single i]
    · rw [if_pos ⟨rfl, hi⟩, one_mul]
    · intro c hc hne
      rw [if_neg (by omega), zero_mul]
    · intro habs
      exact absurd (Finset.mem_range.mpr hi) habs

/-- Witness for claim C2 at `t = [5, 6]` and `X` the `2 × 2` matrix with
columns `[1, 2]` and `[3, 4]`. -/
theorem format_axis_axis0_layout_witness :
    ∃ cst, format_axis exT exX 0 = Except.ok [cst]
      ∧ cst.expr.shape = [1 + 2, 2]
      ∧ (∀ j, j < 2 → cst.expr.entry 0 j = exT.data j)
      ∧ (∀ i j, i < 2 → j < 2 → cst.expr.entry (1 + i) j = exX.entry i j) :=
  format_axis_axis0_layout exT exX 2 2 rfl rfl

/-- Value of `sum_expr` on a nonempty list of operands that all share the head's
shape. -/
theorem sum_expr_cons_ok (t0 : LinOp) (ts : List LinOp)
    (h : ∀ e ∈ ts, e.shape = t0.shape) :
    sum_expr (t0 :: ts) = Except.ok (sumData (t0 :: ts) t0.shape) := by
  simp only [sum_expr]
  rw [if_pos]
  rw [List.all_eq_true]
  intro x hx
  simpa using h x hx

/-- The loop of `format_elemwise`, started at index `i0`, succeeds on
expressions of shape `(R, 1)` and produces terms whose column-sum at flat
row `r * N + i` selects exactly the expression of index `i`. -/
theorem elemwiseTerms_layout (N R : ℕ) (i0 : ℕ) (vars : List LinOp)
    (hlen : i0 + vars.length ≤ N)
    (hsh : ∀ v ∈ vars, v.shape = [R, 1]) :
    ∃ terms, elemwiseTerms (N * R, R) N i0 vars = Except.ok terms
      ∧ terms.length = vars.length
      ∧ (∀ tm ∈ terms, tm.shape = [N * R, 1])
      ∧ ∀ r i, r < R → i < N →
          (terms.map (fun tm => tm.entry (r * N + i) 0)).sum
            = if i0 ≤ i ∧ i - i0 < vars.length
              then (vars.getD (i - i0) zeroOp).entry r 0 else 0 := by
  induction vars generalizing i0 with
  | nil =>
    refine ⟨[], rfl, rfl, by simp, ?_⟩
    intro r i hr hi
    simp
  | cons v rest ih =>
    have hi0 : i0 < N := by
      simp only [List.length_cons] at hlen
      omega
    have hv : v.shape = [R, 1] := hsh v (by simp)
    have hrest : ∀ w ∈ rest, w.shape = [R, 1] := fun w hw => hsh w (by simp [hw])
    have hlen2 : (i0 + 1) + rest.length ≤ N := by
      simp only [List.length_cons] at hlen
      omega
    obtain ⟨terms2, hterms2, hlenT2, hshapes2, hsum2⟩ := ih (i0 + 1) hlen2 hrest
    have hmul : mul_expr
        (create_const ⟨(N * R, R), spacingTriplets (N * R, R) N i0⟩ (N * R, R)) v
        = Except.ok (mulData
            (create_const ⟨(N * R, R), spacingTriplets (N * R, R) N i0⟩ (N * R, R)) v) := by
      apply mul_expr_ok
      rw [LinOp.rows, hv]
      rfl
    have hstep : elemwiseTerms (N * R, R) N i0 (v :: rest)
        = Except.ok (mulData
            (create_const ⟨(N * R, R), spacingTriplets (N * R, R) N i0⟩ (N * R, R)) v
          :: terms2) := by
      simp only [elemwiseTerms, get_spacing_matrix_eq N R i0 hi0, ok_bind, hmul, hterms2]
      rfl
    refine ⟨_, hstep, by simp [hlenT2], ?_, ?_⟩
    · intro tm htm
      rcases List.mem_cons.mp htm with h | h
      · rw [h, mulData_shape, hv]
        rfl
      · exact hshapes2 tm h
    · intro r i hr hi
      have hrowlt : r * N + i < N * R := by
        have h1 : (r + 1) * N ≤ R * N := Nat.mul_le_mul_right N hr
        rw [Nat.succ_mul] at h1
        have h2 : R * N = N * R := Nat.mul_comm R N
        omega
      have hhead : (mulData
          (create_const ⟨(N * R, R), spacingTriplets (N * R, R) N i0⟩ (N * R, R)) v).entry
            (r * N + i) 0
          = if i0 = i then v.entry r 0 else 0 := by
        rw [mulData_entry
          (create_const ⟨(N * R, R), spacingTriplets (N * R, R) N i0⟩ (N * R, R)) v
          (r * N + i) 0 hrowlt]
        have hcols : (create_const
            (⟨(N * R, R), spacingTriplets (N * R, R) N i0⟩ : SparseMat) (N * R, R)).cols
            = R := rfl
        rw [hcols]
        have hcond : ∀ c, (N * c + i0 = r * N + i ∧ c < R) ↔ (c = r ∧ i0 = i) := by
          intro c
          constructor
          · rintro ⟨heq, -⟩
            have heq2 : N * c + i0 = N * r + i := by rw [heq, Nat.mul_comm]
            exact ⟨(mul_add_cancel_of_lt hi0 hi heq2).1,
              (mul_add_cancel_of_lt hi0 hi heq2).2⟩
          · rintro ⟨rfl, rfl⟩
            exact ⟨by rw [Nat.mul_comm], hr⟩
        have hterm : ∀ c ∈ Finset.range R,
            (create_const (⟨(N * R, R), spacingTriplets (N * R, R) N i0⟩ : SparseMat)
              (N * R, R)).entry (r * N + i) c * v.entry c 0
            = (if c = r ∧ i0 = i then (1 : ℚ) else 0) * v.entry c 0 := by
          intro c hc
          rw [spacing_entry N R i0 (r * N + i) c hrowlt, if_congr (hcond c) rfl rfl]
        rw [Finset.sum_congr rfl hterm]
        by_cases hcase : i0 = i
        · rw [if_pos hcase, Finset.sum_eq_single r]
          · rw [if_pos ⟨rfl, hcase⟩, one_mul]
          · intro c hc hne
            rw [if_neg (fun hp => hne hp.1), zero_mul]
          · intro habs
            exact absurd (Finset.mem_range.mpr hr) habs
        · rw [if_neg hcase, Finset.sum_eq_zero]
          intro c hc
          rw [if_neg (fun hp => hcase hp.2), zero_mul]
      rw [List.map_cons, List.sum_cons, hhead, hsum2 r i hr hi]
      rcases Nat.lt_trichotomy i0 i with hord | hord | hord
      · rw [if_neg (by omega : ¬ i0 = i), zero_add]
        have hidx : i - i0 = (i - (i0 + 1)) + 1 := by omega
        rw [hidx, List.getD_cons_succ]
        exact if_congr (by simp only [List.length_cons]; omega) rfl rfl
      · rw [if_pos hord, if_neg (by omega : ¬ (i0 + 1 ≤ i ∧ i - (i0 + 1) < rest.length)),
          add_zero, if_pos ⟨by omega, by simp only [List.length_cons]; omega⟩]
        have hidx : i - i0 = 0 := by omega
        rw [hidx, List.getD_cons_zero]
      · rw [if_neg (by omega : ¬ i0 = i), zero_add,
          if_neg (by omega : ¬ (i0 + 1 ≤ i ∧ i - (i0 + 1) < rest.length)),
          if_neg (by simp only [List.length_cons]; omega)]

/-- Claim C1: for `N ≥ 1` expressions each of shape `(R, 1)`,
`format_elemwise` returns one constraint whose combined expression is a
vector of length `N * R` in which flat position `r * N + i` holds entry
`r` of expression `i` — block `r` is `(v_0[r], …, v_{N-1}[r])`, in input
order. -/
theorem format_elemwise_interleaves (vars : List LinOp) (R : ℕ)
    (hne : vars ≠ []) (hsh : ∀ v ∈ vars, v.shape = [R, 1]) :
    ∃ cst, format_elemwise vars = Except.ok [cst]
      ∧ cst.expr.shape = [vars.length * R, 1]
      ∧ ∀ r i (hr : r < R) (hi : i < vars.length),
          cst.expr.entry (r * vars.length + i) 0 = (vars.get ⟨i, hi⟩).entry r 0 := by
  obtain ⟨v0, rest, rfl⟩ : ∃ v0 rest, vars = v0 :: rest := by
    cases vars with
    | nil => exact absurd rfl hne
    | cons a l => exact ⟨a, l, rfl⟩
  have hv0 : v0.shape = [R, 1] := hsh v0 (by simp)
  have hlen0 : 0 + (v0 :: rest).length ≤ (v0 :: rest).length := by omega
  obtain ⟨terms, hterms, hlenT, hshT, hsumT⟩ :=
    elemwiseTerms_layout ((v0 :: rest).length) R 0 (v0 :: rest) hlen0 hsh
  obtain ⟨t0, ts, rfl⟩ : ∃ t0 ts, terms = t0 :: ts := by
    cases terms with
    | nil => simp at hlenT
    | cons a l => exact ⟨a, l, rfl⟩
  have hts : ∀ e ∈ ts, e.shape = t0.shape := by
    intro e he
    rw [hshT e (by simp [he]), hshT t0 (by simp)]
  have hts2 : ∀ e ∈ t0 :: ts, e.shape = t0.shape := by
    intro e he
    rcases List.mem_cons.mp he with h | h
    · rw [h]
    · exact hts e h
  have hsumE : sum_expr (t0 :: ts) = Except.ok (sumData (t0 :: ts) t0.shape) :=
    sum_expr_cons_ok t0 ts hts
  have hval : format_elemwise (v0 :: rest)
      = Except.ok [create_geq (sumData (t0 :: ts) t0.shape)] := by
    simp only [format_elemwise, hv0, ok_bind, hterms, hsumE]
    rfl
  refine ⟨_, hval, ?_, ?_⟩
  · show (sumData (t0 :: ts) t0.shape).shape = [(v0 :: rest).length * R, 1]
    rw [sumData_shape, hshT t0 (by simp)]
  · intro r i hr hi
    show (sumData (t0 :: ts) t0.shape).entry (r * (v0 :: rest).length + i) 0
      = ((v0 :: rest).get ⟨i, hi⟩).entry r 0
    rw [sumData_entry_list _ _ _ _ hts2, hsumT r i hr hi,
      if_pos ⟨Nat.zero_le i, by simpa using hi⟩]
    congr 1
    have hsub : i - 0 = i := Nat.sub_zero i
    rw [hsub, List.getD_eq_getElem _ _ (by simpa using hi), List.get_eq_getElem]

/-- Witness for claim C1 at `N = 2`, `R = 2`, `expr0 = [1, 2]`,
`expr1 = [10, 20]`. -/
theorem format_elemwise_interleaves_witness :
    ∃ cst, format_elemwise [exV0, exV1] = Except.ok [cst]
      ∧ cst.expr.shape = [[exV0, exV1].length * 2, 1]
      ∧ ∀ r i (hr : r < 2) (hi : i < [exV0, exV1].length),
          cst.expr.entry (r * [exV0, exV1].length + i) 0
            = ([exV0, exV1].get ⟨i, hi⟩).entry r 0 :=
  format_elemwise_interleaves [exV0, exV1] 2 (by simp) (by simp [exV0, exV1])

/-- A nonempty shape tuple decomposes as row count consed onto the
trailing dimensions. -/
theorem shape_decomp (v : LinOp) (hvne : v.shape ≠ []) :
    v.shape = v.rows :: v.shape.drop 1 := by
  cases hsh : v.shape with
  | nil => exact absurd hsh hvne
  | cons a l =>
    rw [LinOp.rows, hsh]
    rfl

/-- When every expression has row count `R0`, the loop of
`format_elemwise` succeeds and each product's shape keeps the expression's
trailing dimensions under `N * R0` rows. -/
theorem elemwiseTerms_ok_shapes (N R0 : ℕ) (i0 : ℕ) (vars : List LinOp)
    (hlen : i0 + vars.length ≤ N)
    (hrows : ∀ v ∈ vars, v.rows = R0) :
    ∃ terms, elemwiseTerms (N * R0, R0) N i0 vars = Except.ok terms
      ∧ terms.map LinOp.shape = vars.map (fun v => N * R0 :: v.shape.drop 1) := by
  induction vars generalizing i0 with
  | nil => exact ⟨[], rfl, rfl⟩
  | cons v rest ih =>
    have hi0 : i0 < N := by
      simp only [List.length_cons] at hlen
      omega
    have hlen2 : (i0 + 1) + rest.length ≤ N := by
      simp only [List.length_cons] at hlen
      omega
    obtain ⟨terms2, hterms2, hmap2⟩ :=
      ih (i0 + 1) hlen2 (fun w hw => hrows w (by simp [hw]))
    have hmul : mul_expr
        (create_const ⟨(N * R0, R0), spacingTriplets (N * R0, R0) N i0⟩ (N * R0, R0)) v
        = Except.ok (mulData
            (create_const ⟨(N * R0, R0), spacingTriplets (N * R0, R0) N i0⟩ (N * R0, R0)) v) := by
      apply mul_expr_ok
      rw [hrows v (by simp)]
      rfl
    refine ⟨mulData
        (create_const ⟨(N * R0, R0), spacingTriplets (N * R0, R0) N i0⟩ (N * R0, R0)) v
      :: terms2, ?_, ?_⟩
    · simp only [elemwiseTerms, get_spacing_matrix_eq N R0 i0 hi0, ok_bind, hmul, hterms2]
      rfl
    · simp only [List.map_cons, hmap2, mulData_shape]
      rfl

/-- When some expression's row count disagrees with `R0`, the loop of
`format_elemwise` fails with a shape mismatch at the offending multiply. -/
theorem elemwiseTerms_err (N R0 : ℕ) (i0 : ℕ) (vars : List LinOp)
    (hlen : i0 + vars.length ≤ N)
    (hbad : ∃ v ∈ vars, v.rows ≠ R0) :
    elemwiseTerms (N * R0, R0) N i0 vars = Except.error LinErr.shapeMismatch := by
  induction vars generalizing i0 with
  | nil => simp at hbad
  | cons v rest ih =>
    have hi0 : i0 < N := by
      simp only [List.length_cons] at hlen
      omega
    have hlen2 : (i0 + 1) + rest.length ≤ N := by
      simp only [List.length_cons] at hlen
      omega
    by_cases hv : v.rows = R0
    · have hbad2 : ∃ w ∈ rest, w.rows ≠ R0 := by
        obtain ⟨w, hw, hwne⟩ := hbad
        rcases List.mem_cons.mp hw with h | h
        · exact absurd (by rw [h]; exact hv) hwne
        · exact ⟨w, h, hwne⟩
      have hmul : mul_expr
          (create_const ⟨(N * R0, R0), spacingTriplets (N * R0, R0) N i0⟩ (N * R0, R0)) v
          = Except.ok (mulData
              (create_const ⟨(N * R0, R0), spacingTriplets (N * R0, R0) N i0⟩ (N * R0, R0)) v) := by
        apply mul_expr_ok
        rw [hv]
        rfl
      simp only [elemwiseTerms, get_spacing_matrix_eq N R0 i0 hi0, ok_bind, hmul,
        ih (i0 + 1) hlen2 hbad2, error_bind]
    · have hmulerr : mul_expr
          (create_const ⟨(N * R0, R0), spacingTriplets (N * R0, R0) N i0⟩ (N * R0, R0)) v
          = Except.error LinErr.shapeMismatch := by
        rw [mul_expr, if_neg]
        intro h
        exact hv h
      simp only [elemwiseTerms, get_spacing_matrix_eq N R0 i0 hi0, ok_bind, hmulerr,
        error_bind]

/-- Claim C6: `format_elemwise` on (non-scalar) expressions whose shapes
do not all match fails with the composition layer's `ShapeMismatch`
rather than returning a constraint with a silently wrong layout: either
some multiply has incompatible inner dimensions, or the final n-ary sum
sees operands of different shapes. -/
theorem format_elemwise_mismatch (vars : List LinOp) (hne : vars ≠ [])
    (hns : ∀ v ∈ vars, v.shape ≠ [])
    (hmis : ¬ ∀ v ∈ vars, v.shape = (vars.head hne).shape) :
    format_elemwise vars = Except.error LinErr.shapeMismatch := by
  obtain ⟨v0, rest, rfl⟩ : ∃ v0 rest, vars = v0 :: rest := by
    cases vars with
    | nil => exact absurd rfl hne
    | cons a l => exact ⟨a, l, rfl⟩
  simp only [List.head_cons] at hmis
  obtain ⟨h0, t0, hv0⟩ : ∃ h t, v0.shape = h :: t := by
    cases hsh : v0.shape with
    | nil => exact absurd hsh (hns v0 (by simp))
    | cons a l => exact ⟨a, l, rfl⟩
  have hv0rows : v0.rows = h0 := by
    rw [LinOp.rows, hv0]
    rfl
  have hlen0 : 0 + (v0 :: rest).length ≤ (v0 :: rest).length := by omega
  by_cases hall : ∀ v ∈ (v0 :: rest), v.rows = h0
  · obtain ⟨terms, hterms, hmap⟩ :=
      elemwiseTerms_ok_shapes ((v0 :: rest).length) h0 0 (v0 :: rest) hlen0 hall
    obtain ⟨t1, ts, rfl⟩ : ∃ t1 ts, terms = t1 :: ts := by
      cases terms with
      | nil => simp at hmap
      | cons a l => exact ⟨a, l, rfl⟩
    simp only [List.map_cons, List.cons.injEq] at hmap
    obtain ⟨ht1, hts⟩ := hmap
    push_neg at hmis
    obtain ⟨w, hw, hwne⟩ := hmis
    have hwrest : w ∈ rest := by
      rcases List.mem_cons.mp hw with h | h
      · exact absurd (by rw [h]) hwne
      · exact h
    have hwdrop : w.shape.drop 1 ≠ v0.shape.drop 1 := by
      intro hdrop
      apply hwne
      rw [shape_decomp w (hns w hw), shape_decomp v0 (hns v0 (by simp)),
        hall w hw, hv0rows, hdrop]
    have hbadterm : ∃ tm ∈ ts, tm.shape
        = (v0 :: rest).length * h0 :: w.shape.drop 1 := by
      have hmem : ((v0 :: rest).length * h0 :: w.shape.drop 1)
          ∈ rest.map (fun v => (v0 :: rest).length * h0 :: v.shape.drop 1) :=
        List.mem_map.mpr ⟨w, hwrest, rfl⟩
      rw [← hts] at hmem
      obtain ⟨tm, htm, htmsh⟩ := List.mem_map.mp hmem
      exact ⟨tm, htm, htmsh⟩
    have hsumerr : sum_expr (t1 :: ts) = Except.error LinErr.shapeMismatch := by
      simp only [sum_expr]
      rw [if_neg]
      intro habs
      rw [List.all_eq_true] at habs
      obtain ⟨tm, htm, htmsh⟩ := hbadterm
      have h2 := habs tm htm
      simp only [decide_eq_true_eq] at h2
      rw [htmsh, ht1] at h2
      simp only [List.cons.injEq] at h2
      exact hwdrop h2.2
    simp only [format_elemwise, hv0, ok_bind, hterms, hsumerr, error_bind]
  · push_neg at hall
    obtain ⟨v, hv, hvne⟩ := hall
    have herr := elemwiseTerms_err ((v0 :: rest).length) h0 0 (v0 :: rest) hlen0 ⟨v, hv, hvne⟩
    simp only [format_elemwise, hv0, ok_bind, herr, error_bind]

/-- Witness for claim C6 on the mismatched pair of shapes `(2, 1)` and
`(3, 1)`. -/
theorem format_elemwise_mismatch_witness :
    format_elemwise [exV0, exW] = Except.error LinErr.shapeMismatch :=
  format_elemwise_mismatch [exV0, exW] (by simp)
    (by simp [exV0, exW])
    (by simp [exV0, exW])

end Cvx
